import Mathlib

set_option maxHeartbeats 1000000

/-
Verification of the ai-playwright visual tester.

This file gives a shallow embedding of the TypeScript sources
src/ai/visual-tester.ts and src/ai/ai-client.ts, and settles the frozen
claims about them.  JavaScript runtime behaviour is modelled explicitly:
truthiness, the defaulting idiom x || d, JSON.parse (including the fact
that property access on a parsed null throws and lands in the free-text
fallback), promise rejection as Except.error, and string conversion of
non-string message contents.  Effects of the surrounding Playwright page
and test runner are modelled as an explicit environment of outcomes.
-/

/-! ## JavaScript-flavoured basics -/

/-- Substring test helper: does the pattern list occur as a prefix of the hay list. -/
def isPreB : List Char → List Char → Bool
  | [], _ => true
  | _ :: _, [] => false
  | p :: ps, h :: hs => p == h && isPreB ps hs

/-- Substring test on char lists, the semantics of String.prototype.includes. -/
def subList : List Char → List Char → Bool
  | [], _ => true
  | _ :: _, [] => false
  | p :: ps, h :: hs => isPreB (p :: ps) (h :: hs) || subList (p :: ps) hs

/-- Boolean substring test on strings, the semantics of String.prototype.includes. -/
def hasSub (s pat : String) : Bool := subList pat.toList s.toList

/-- ASCII lowercasing of a string, modelling String.prototype.toLowerCase on the
ASCII range (the heuristic tokens scanned for are pure ASCII). -/
def lowerStr (s : String) : String := String.mk (s.toList.map Char.toLower)

/-- Substring containment as a proposition: t occurs inside s. -/
def containsStr (s t : String) : Prop := ∃ p q : String, s = p ++ t ++ q

/-! ## JSON values, as produced by JSON.parse -/

/-- A JavaScript JSON value.  Numbers keep their source lexeme: the claims never
depend on numeric value beyond truthiness, and JS number-to-string
canonicalisation is not modelled. -/
inductive Json where
  | null
  | bool (b : Bool)
  | num (lex : String)
  | str (s : String)
  | arr (xs : List Json)
  | obj (fields : List (String × Json))

/-- A JSON number lexeme denotes a nonzero double iff its mantissa has a nonzero
digit (the exponent cannot make zero nonzero or vice versa). -/
def numNonzero (lex : String) : Bool :=
  (lex.toList.takeWhile (fun c => c != 'e' && c != 'E')).any
    (fun c => '1' ≤ c && c ≤ '9')

/-- JavaScript truthiness of a JSON value. -/
def Json.truthy : Json → Bool
  | .null => false
  | .bool b => b
  | .num lex => numNonzero lex
  | .str s => s != ""
  | .arr _ => true
  | .obj _ => true

mutual

/-- Structural boolean equality on JSON values. -/
def jsonBeq : Json → Json → Bool
  | .null, .null => true
  | .bool a, .bool b => a == b
  | .num a, .num b => a == b
  | .str a, .str b => a == b
  | .arr a, .arr b => jsonListBeq a b
  | .obj a, .obj b => jsonFieldsBeq a b
  | _, _ => false

/-- Structural boolean equality on lists of JSON values. -/
def jsonListBeq : List Json → List Json → Bool
  | [], [] => true
  | x :: xs, y :: ys => jsonBeq x y && jsonListBeq xs ys
  | _, _ => false

/-- Structural boolean equality on JSON object fields. -/
def jsonFieldsBeq : List (String × Json) → List (String × Json) → Bool
  | [], [] => true
  | (k1, v1) :: xs, (k2, v2) :: ys => k1 == k2 && jsonBeq v1 v2 && jsonFieldsBeq xs ys
  | _, _ => false

end

instance : BEq Json := ⟨jsonBeq⟩

/-- Last-binding-wins association lookup: JSON.parse keeps the last duplicate key. -/
def lookupLast : List (String × Json) → String → Option Json
  | [], _ => none
  | (k, v) :: rest, key =>
    match lookupLast rest key with
    | some w => some w
    | none => if k == key then some v else none

/-- Property access on a parsed JSON value; none models undefined.  Access on
null throws in JS and is handled separately by the interpreter. -/
def getField (j : Json) (k : String) : Option Json :=
  match j with
  | .obj fs => lookupLast fs k
  | _ => none

/-- The JavaScript defaulting idiom v || d: the value if truthy, else the default;
an absent (undefined) value also falls to the default. -/
def jsOr (o : Option Json) (d : Json) : Json :=
  match o with
  | some v => if v.truthy then v else d
  | none => d

/-! ## A strict JSON parser, modelling JSON.parse

Fuel-based structural recursion; the fuel supplied by jsonParse is large
enough that it never runs out on any input (each recursive step is preceded
by the consumption of at least one character). -/

/-- JSON whitespace characters: space, newline, tab, carriage return. -/
def isJWs (c : Char) : Bool :=
  c.toNat == 32 || c.toNat == 10 || c.toNat == 9 || c.toNat == 13

/-- ASCII decimal digit test. -/
def isJDigit (c : Char) : Bool := 48 ≤ c.toNat && c.toNat ≤ 57

/-- Skip JSON whitespace. -/
def skipWs (cs : List Char) : List Char := cs.dropWhile isJWs

/-- Value of a hex digit, if any. -/
def hexVal (c : Char) : Option Nat :=
  let n := c.toNat
  if 48 ≤ n && n ≤ 57 then some (n - 48)
  else if 97 ≤ n && n ≤ 102 then some (n - 87)
  else if 65 ≤ n && n ≤ 70 then some (n - 55)
  else none

/-- The single-character JSON string escapes. -/
def escMapJson (e : Char) : Option Char :=
  if e == '"' then some '"'
  else if e == '\\' then some '\\'
  else if e == '/' then some '/'
  else if e == 'n' then some '\n'
  else if e == 't' then some '\t'
  else if e == 'r' then some '\r'
  else if e == 'b' then some (Char.ofNat 8)
  else if e == 'f' then some (Char.ofNat 12)
  else none

/-- Parse the body of a JSON string literal after the opening quote, with the
standard escapes.  Raw control characters are rejected, as in JSON.parse. -/
def pString (acc : List Char) : List Char → Option (String × List Char)
  | [] => none
  | '"' :: more => some (String.mk acc.reverse, more)
  | '\\' :: 'u' :: a :: b :: c :: d :: more =>
    match hexVal a, hexVal b, hexVal c, hexVal d with
    | some ha, some hb, some hc, some hd =>
      pString (Char.ofNat (ha * 4096 + hb * 256 + hc * 16 + hd) :: acc) more
    | _, _, _, _ => none
  | '\\' :: e :: more =>
    match escMapJson e with
    | some c2 => pString (c2 :: acc) more
    | none => none
  | c :: more => if c.toNat < 32 then none else pString (c :: acc) more

/-- Parse one or more decimal digits; fails on zero digits. -/
def pDigits1 (cs : List Char) : Option (List Char × List Char) :=
  match cs.takeWhile isJDigit with
  | [] => none
  | ds => some (ds, cs.dropWhile isJDigit)

/-- Parse a JSON number literal, returning its lexeme.  The strict JSON grammar:
optional minus, an integer part without leading zeros, optional fraction,
optional exponent. -/
def pNumber (cs : List Char) : Option (String × List Char) :=
  let (sgn, cs1) :=
    match cs with
    | '-' :: r => (['-'], r)
    | _ => (([] : List Char), cs)
  match cs1 with
  | '0' :: r =>
    match r with
    | c :: _ =>
      if isJDigit c then none else pNumTail (sgn ++ ['0']) r
    | [] => pNumTail (sgn ++ ['0']) []
  | c :: _ =>
    if isJDigit c then
      match pDigits1 cs1 with
      | some (ds, r) => pNumTail (sgn ++ ds) r
      | none => none
    else none
  | [] => none
where
  /-- Optional fraction and exponent after the integer part. -/
  pNumTail (pre : List Char) (cs : List Char) : Option (String × List Char) :=
    let (withFrac, cs2) :=
      match cs with
      | '.' :: r =>
        match pDigits1 r with
        | some (ds, r2) => (some (pre ++ ['.'] ++ ds), r2)
        | none => (none, cs)
      | _ => (some pre, cs)
    match withFrac with
    | none => none
    | some pre2 =>
      match cs2 with
      | e :: r =>
        if e == 'e' || e == 'E' then
          let (sgn2, r2) :=
            match r with
            | '+' :: r3 => (['+'], r3)
            | '-' :: r3 => (['-'], r3)
            | _ => (([] : List Char), r)
          match pDigits1 r2 with
          | some (ds, r3) => some (String.mk (pre2 ++ [e] ++ sgn2 ++ ds), r3)
          | none => none
        else some (String.mk pre2, cs2)
      | [] => some (String.mk pre2, [])

mutual

/-- Parse one JSON value (no leading whitespace). -/
def pVal : Nat → List Char → Option (Json × List Char)
  | 0, _ => none
  | f + 1, cs =>
    match cs with
    | 't' :: 'r' :: 'u' :: 'e' :: more => some (Json.bool true, more)
    | 'f' :: 'a' :: 'l' :: 's' :: 'e' :: more => some (Json.bool false, more)
    | 'n' :: 'u' :: 'l' :: 'l' :: more => some (Json.null, more)
    | '"' :: more => (pString [] more).map (fun p => (Json.str p.1, p.2))
    | '[' :: r =>
      match skipWs r with
      | ']' :: r2 => some (.arr [], r2)
      | r1 => (pElems f r1).map (fun p => (.arr p.1, p.2))
    | '\x7b' :: r =>
      match skipWs r with
      | '\x7d' :: r2 => some (.obj [], r2)
      | r1 => (pMembers f r1).map (fun p => (.obj p.1, p.2))
    | _ => (pNumber cs).map (fun p => (.num p.1, p.2))

/-- Parse the elements of a nonempty JSON array, up to and including the
closing bracket. -/
def pElems : Nat → List Char → Option (List Json × List Char)
  | 0, _ => none
  | f + 1, cs =>
    match pVal f cs with
    | none => none
    | some (v, r) =>
      match skipWs r with
      | ',' :: r2 => (pElems f (skipWs r2)).map (fun p => (v :: p.1, p.2))
      | ']' :: r2 => some ([v], r2)
      | _ => none

/-- Parse the members of a nonempty JSON object, up to and including the
closing brace. -/
def pMembers : Nat → List Char → Option (List (String × Json) × List Char)
  | 0, _ => none
  | f + 1, cs =>
    match cs with
    | '"' :: r =>
      match pString [] r with
      | none => none
      | some (k, r1) =>
        match skipWs r1 with
        | ':' :: r2 =>
          match pVal f (skipWs r2) with
          | none => none
          | some (v, r3) =>
            match skipWs r3 with
            | ',' :: r4 => (pMembers f (skipWs r4)).map (fun p => ((k, v) :: p.1, p.2))
            | '\x7d' :: r4 => some ([(k, v)], r4)
            | _ => none
        | _ => none
    | _ => none

end

/-- JSON.parse: parse a complete JSON document, allowing surrounding whitespace
and rejecting trailing garbage; none models a thrown SyntaxError. -/
def jsonParse (s : String) : Option Json :=
  match pVal (2 * s.length + 2) (skipWs s.toList) with
  | some (v, r) => if (skipWs r).isEmpty then some v else none
  | none => none

/-! ## The result interpreter (visual-tester.ts, check, lines 77-110)

The try block parses the raw content with JSON.parse and builds the result
with the defaulting idiom field || default; on any exception there (a parse
error, or the TypeError thrown by property access when the parsed value is
null) the catch block falls back to the token heuristic over the lowercased
raw text. -/

/-- The value stored in the local variable result of check.  Fields hold
JavaScript values: TypeScript typing is not enforced at runtime, so a field
can end up non-conforming (for example a truthy string assigned to success). -/
structure VisualTestResult where
  success : Json
  reason : Json
  locators : Json

/-- Token heuristic of the free-text fallback: the lowercased content includes
one of "true", "yes", "correct". -/
def heurSuccess (s : String) : Bool :=
  let l := lowerStr s
  hasSub l "true" || hasSub l "yes" || hasSub l "correct"

/-- Result built by the catch (parseError) branch. -/
def fallbackResult (s : String) : VisualTestResult :=
  { success := .bool (heurSuccess s), reason := .str s, locators := .arr [] }

/-- Interpretation of the raw content string (lines 86-102).  A document
parsing to null takes the fallback path because null.success throws inside
the inner try. -/
def interpretContent (s : String) : VisualTestResult :=
  match jsonParse s with
  | some .null => fallbackResult s
  | some j =>
    { success := jsOr (getField j "success") (.bool false)
      reason := jsOr (getField j "reason") (.str "No reason provided")
      locators := jsOr (getField j "locators") (.arr []) }
  | none => fallbackResult s

/-! ## The evaluator environment and check (visual-tester.ts, lines 27-126) -/

/-- A value thrown by JavaScript code: an Error with a message, or any
non-Error value (whose message defaults to "Unknown error" at line 107). -/
inductive JsErr where
  | error (msg : String)
  | nonError
deriving DecidableEq

/-- Message extraction at line 107: error instanceof Error, then its message. -/
def jsErrMessage : JsErr → String
  | .error m => m
  | .nonError => "Unknown error"

/-- The content field of the LangChain response: a string, or an array of n
complex (object) content blocks, or null/undefined. -/
inductive Content where
  | str (s : String)
  | blocks (n : Nat)
  | nil
deriving DecidableEq

/-- JavaScript falsiness of the content value (line 78): empty strings and
null/undefined are falsy; an array is truthy even when empty. -/
def contentFalsy : Content → Bool
  | .str s => s == ""
  | .blocks _ => false
  | .nil => true

/-- String conversion of an array of n plain objects: Array.prototype.join
with commas of "[object Object]" entries. -/
def objJoin : Nat → String
  | 0 => ""
  | 1 => "[object Object]"
  | n + 2 => "[object Object]," ++ objJoin (n + 1)

/-- String(content) at line 83 (the string branch is the identity). -/
def contentToString : Content → String
  | .str s => s
  | .blocks n => objJoin n
  | .nil => "null"

/-- Result built by the outer catch (lines 103-110). -/
def errorResult (e : JsErr) : VisualTestResult :=
  { success := .bool false
    reason := .str ("AI analysis failed: " ++ jsErrMessage e)
    locators := .arr [] }

/-- JavaScript property access x.length: defined for strings and arrays,
undefined otherwise. -/
def jsLen : Json → Option Nat
  | .str s => some s.length
  | .arr xs => some xs.length
  | _ => none

/-- The guard at line 113: result.locators && result.locators.length > 0.
An undefined length compares as undefined > 0, which is false. -/
def condLocators (l : Json) : Bool :=
  l.truthy &&
    (match jsLen l with
     | some n => decide (0 < n)
     | none => false)

/-- Items produced by for..of over the locators value: array elements, or the
characters of a string; only strings and arrays pass the length guard. -/
def iterItems : Json → List Json
  | .arr xs => xs
  | .str s => s.toList.map (fun c => Json.str c.toString)
  | _ => []

/-- Outcome of resolving one locator inside the per-locator try (lines
163-169): resolution or evaluation throws, or zero elements match, or the
first matching element is found and marked. -/
inductive LocRes where
  | throws
  | zero
  | found
deriving DecidableEq

/-- An attachment on the test record. -/
structure Artifact where
  name : String
  contentType : String
  body : Nat
deriving DecidableEq

/-- Outcomes of the effectful collaborators consumed by one check call.
Except.error models a rejected promise (a thrown exception). -/
structure CheckEnv where
  screenshot1 : Except JsErr Nat
  pageContent : Except JsErr String
  invokeResult : Except JsErr Content
  addStyleTag : Except JsErr Unit
  locRes : Json → LocRes
  screenshot2 : Except JsErr Nat
  attachResult : Except JsErr Unit

/-- highlightElements (lines 132-175): a no-op on an empty list; otherwise the
style injection is awaited outside any try, so its failure rejects; each
locator is then resolved inside its own try, a failing or unmatched locator
is skipped, and the first matching element of each found locator is marked.
Returns the list of marked items. -/
def highlightElements (env : CheckEnv) (items : List Json) : Except JsErr (List Json) :=
  if items.isEmpty then .ok []
  else
    match env.addStyleTag with
    | .error e => .error e
    | .ok _ => .ok (items.filter (fun i => env.locRes i == LocRes.found))

/-- The value held by result after the try/catch (lines 39-110): the outer
catch converts an invoke rejection, or the explicit throw on falsy content,
into an errorResult; otherwise the content string is interpreted. -/
def interpretedResult (env : CheckEnv) : VisualTestResult :=
  match env.invokeResult with
  | .error e => errorResult e
  | .ok c =>
    if contentFalsy c then errorResult (.error "No response from AI")
    else interpretContent (contentToString c)

/-- check (lines 27-126): screenshot and DOM capture (both awaited outside the
try), model invocation and interpretation, then, when the locators value is
truthy with positive length, highlighting, a second screenshot, and the
attachment of the named png artifact.  The phase after line 110 is not
guarded, so a failure there rejects the whole call. -/
def check (env : CheckEnv) : Except JsErr (VisualTestResult × List Artifact) :=
  match env.screenshot1 with
  | .error e => .error e
  | .ok _ =>
    match env.pageContent with
    | .error e => .error e
    | .ok _ =>
      if condLocators (interpretedResult env).locators then
        match highlightElements env (iterItems (interpretedResult env).locators) with
        | .error e => .error e
        | .ok _ =>
          match env.screenshot2 with
          | .error e => .error e
          | .ok shot =>
            match env.attachResult with
            | .error e => .error e
            | .ok _ =>
              .ok (interpretedResult env, [⟨"ai-analysis-highlighted", "image/png", shot⟩])
      else .ok (interpretedResult env, [])

/-! ## The model client configuration (ai-client.ts) -/

/-- The five environment variables read at module initialisation; none models
an unset variable. -/
structure AzureEnv where
  apiKey : Option String
  endpoint : Option String
  deploymentName : Option String
  apiVersion : Option String
  resourceName : Option String

/-- The constructed AzureChatOpenAI configuration. -/
structure LlmCfg where
  azureOpenAIApiKey : String
  azureOpenAIEndpoint : String
  azureOpenAIApiInstanceName : String
  azureOpenAIApiDeploymentName : String
  azureOpenAIApiVersion : String
  maxRetries : Nat
deriving DecidableEq

/-- Truthiness of an environment variable value: set and nonempty. -/
def truthyEnv (o : Option String) : Bool :=
  match o with
  | none => false
  | some s => s != ""

/-- Module initialisation of ai-client.ts: the four falsiness guards in source
order, then the client construction.  The API version uses nullish
coalescing, so an empty string is kept, and maxRetries is the literal 2. -/
def initLlm (e : AzureEnv) : Except String LlmCfg :=
  if !truthyEnv e.apiKey then
    .error "Missing AZURE_OPENAI_API_KEY environment variable."
  else if !truthyEnv e.endpoint then
    .error "Missing AZURE_OPENAI_ENDPOINT environment variable."
  else if !truthyEnv e.deploymentName then
    .error "Missing AZURE_OPENAI_DEPLOYMENT_NAME environment variable."
  else if !truthyEnv e.resourceName then
    .error "Missing AZURE_OPENAI_RESOURCE_NAME environment variable."
  else
    .ok
      { azureOpenAIApiKey := e.apiKey.getD ""
        azureOpenAIEndpoint := e.endpoint.getD ""
        azureOpenAIApiInstanceName := e.resourceName.getD ""
        azureOpenAIApiDeploymentName := e.deploymentName.getD ""
        azureOpenAIApiVersion := e.apiVersion.getD "2024-12-01-preview"
        maxRetries := 2 }

/-! ## Well-typedness of interpreted results

TypeScript does not check the parsed JSON at runtime, so a truthy field of
the wrong type flows through the defaulting idiom unchanged.  These
predicates delimit the inputs on which the returned result actually has the
declared field types. -/

/-- Each of the three recognised fields of a parsed JSON value is absent,
falsy, or of the declared type. -/
def fieldsWellTyped (j : Json) : Prop :=
  (∀ v, getField j "success" = some v → v.truthy = true → ∃ b, v = Json.bool b) ∧
  (∀ v, getField j "reason" = some v → v.truthy = true → ∃ s, v = Json.str s) ∧
  (∀ v, getField j "locators" = some v → v.truthy = true → ∃ l, v = Json.arr l)

/-- The result shape promised by the VisualTestResult interface: a boolean
success, a nonempty string reason, and a list of locators. -/
def typedResult (r : VisualTestResult) : Prop :=
  (∃ b, r.success = Json.bool b) ∧
  (∃ s, r.reason = Json.str s ∧ s ≠ "") ∧
  (∃ l, r.locators = Json.arr l)

/-- A model content value that keeps the result well typed: it is falsy (and
then rejected before interpretation) or stringifies to a nonempty string, and
whenever its string parses as JSON the recognised fields are well typed. -/
def wellFormedContent (c : Content) : Prop :=
  (contentFalsy c = true ∨ contentToString c ≠ "") ∧
  (∀ j, jsonParse (contentToString c) = some j → fieldsWellTyped j)

/-! ## Concrete environments used by counterexamples and witnesses -/

/-- Environment whose model output is valid JSON carrying a truthy non-boolean
success field. -/
def c2Env : CheckEnv :=
  ⟨.ok 0, .ok "", .ok (.str "\x7b\"success\":\"yes\"\x7d"), .ok (),
    fun _ => LocRes.found, .ok 0, .ok ()⟩

/-- Environment whose model output is plain affirmative text. -/
def c2WitEnv : CheckEnv :=
  ⟨.ok 0, .ok "", .ok (.str "Yes."), .ok (), fun _ => LocRes.found, .ok 0, .ok ()⟩

/-- Environment with one locator in the model output and a failing second
screenshot. -/
def c5Env : CheckEnv :=
  ⟨.ok 0, .ok "",
    .ok (.str "\x7b\"success\":true,\"reason\":\"ok\",\"locators\":[\"#a\"]\x7d"),
    .ok (), fun _ => LocRes.found, .error (.error "page closed"), .ok ()⟩

/-- Environment with one locator in the model output, every page operation
succeeding, and every locator resolution throwing. -/
def c5WitEnv : CheckEnv :=
  ⟨.ok 0, .ok "",
    .ok (.str "\x7b\"success\":true,\"reason\":\"ok\",\"locators\":[\"#a\"]\x7d"),
    .ok (), fun _ => LocRes.throws, .ok 7, .ok ()⟩

/-- Environment with two locators in the model output, of which only the first
resolves. -/
def c6WitEnv : CheckEnv :=
  ⟨.ok 0, .ok "",
    .ok (.str "\x7b\"success\":true,\"reason\":\"ok\",\"locators\":[\"#a\",\"#b\"]\x7d"),
    .ok (), fun i => if i == Json.str "#a" then LocRes.found else LocRes.zero,
    .ok 9, .ok ()⟩

/-- Environment whose style injection fails. -/
def c7Env : CheckEnv :=
  ⟨.ok 0, .ok "", .ok (.str ""), .error (.error "style failed"),
    fun _ => LocRes.found, .ok 0, .ok ()⟩

/-- Environment whose style injection succeeds and whose second locator throws
during resolution. -/
def c7WitEnv : CheckEnv :=
  ⟨.ok 0, .ok "", .ok (.str ""), .ok (),
    fun i => if i == Json.str "#bad" then LocRes.throws else LocRes.found,
    .ok 0, .ok ()⟩

/-- Environment used to exercise the model-throw path. -/
def c1WitEnv : CheckEnv :=
  ⟨.ok 0, .ok "", .error (.error "boom"), .ok (), fun _ => LocRes.found, .ok 0, .ok ()⟩

/-- Environment whose model call succeeds with an empty string content. -/
def c10WitEnv : CheckEnv :=
  ⟨.ok 0, .ok "", .ok (.str ""), .ok (), fun _ => LocRes.found, .ok 0, .ok ()⟩

/-- A fully populated configuration environment without an API version. -/
def c8EnvFull : AzureEnv := ⟨some "key", some "https://endpoint", some "gpt", none, some "res"⟩

/-- A configuration environment missing the resource name. -/
def c8EnvMissing : AzureEnv := ⟨some "key", some "https://endpoint", some "gpt", some "v", none⟩


/-! ## The HTML reducer (visual-tester.ts, _getDOMSnapshot, lines 181-240)

Modelled from the spec: the reduction delegates to the sanitize-html library,
whose code is not part of this repository.  The model below implements the
documented behaviour of the call in _getDOMSnapshot per spec section 4.1: a
fixed allow-list of tags, a fixed allow-list of attributes (with the data-
and aria- wildcards), http/https/data URI schemes on URL-bearing attributes,
discard mode for disallowed tags with script/style/textarea content dropped,
and entity-escaped output over lowercased tag and attribute names.  Tag
balancing performed by the library and non-ASCII attribute names are not
modelled. -/

/-- ASCII lowercasing of one character. -/
def charLower (c : Char) : Char :=
  if 65 ≤ c.toNat && c.toNat ≤ 90 then Char.ofNat (c.toNat + 32) else c

/-- Lowercase ASCII letter or digit: the characters of a normalised tag name. -/
def isNmChar (c : Char) : Bool :=
  (97 ≤ c.toNat && c.toNat ≤ 122) || (48 ≤ c.toNat && c.toNat ≤ 57)

/-- ASCII letter. -/
def isAlphaB (c : Char) : Bool :=
  (65 ≤ c.toNat && c.toNat ≤ 90) || (97 ≤ c.toNat && c.toNat ≤ 122)

/-- Characters accepted inside a tag name while lexing. -/
def isTagChar (c : Char) : Bool := isAlphaB c || (48 ≤ c.toNat && c.toNat ≤ 57)

/-- Characters accepted inside an attribute name while lexing. -/
def isAttrChar (c : Char) : Bool := isTagChar c || c == '-'

/-- Lowercase ASCII letter, digit or dash: a normalised attribute-name character. -/
def isAttrLower (c : Char) : Bool := isNmChar c || c == '-'

/-- Characters accepted inside an entity name. -/
def isEntChar (c : Char) : Bool := isTagChar c

/-- A lexed markup token: a raw text run, an opening tag with its attributes
(name-value pairs), or a closing tag. -/
inductive Tok where
  | text (s : List Char)
  | openTag (nm : List Char) (attrs : List (List Char × List Char))
  | closeTag (nm : List Char)
deriving DecidableEq

/-- Decode a named character entity; unrecognised entities stay literal. -/
def decodeEnt : List Char → List Char
  | ['a', 'm', 'p'] => ['&']
  | ['l', 't'] => ['<']
  | ['g', 't'] => ['>']
  | ['q', 'u', 'o', 't'] => ['"']
  | acc => '&' :: acc ++ [';']

/-- Prepend one text character to a token list, merging into a leading text
run when one is present. -/
def pushText (c : Char) : List Tok → List Tok
  | Tok.text s :: ts => Tok.text (c :: s) :: ts
  | ts => Tok.text [c] :: ts

/-- Prepend a character run to a token list, merging into a leading text run. -/
def pushTextStr (s : List Char) (ts : List Tok) : List Tok := s.foldr pushText ts

/-- Lexer state: plain text, a text entity, the character after a bracket, a
comment or doctype, a closing-tag name and its trailing junk, an opening-tag
name, the inside of a tag, and an attribute name, equals sign, quoted value,
and value entity. -/
inductive LMode where
  | txt
  | ent (acc : List Char)
  | tagStart
  | bang
  | closeNm (acc : List Char)
  | closeJunk (acc : List Char)
  | openNm (acc : List Char)
  | inTag (nm : List Char) (attrs : List (List Char × List Char))
  | attrNm (nm : List Char) (attrs : List (List Char × List Char)) (key : List Char)
  | attrEq (nm : List Char) (attrs : List (List Char × List Char)) (key : List Char)
  | attrVal (nm : List Char) (attrs : List (List Char × List Char)) (key : List Char)
      (acc : List Char)
  | attrEnt (nm : List Char) (attrs : List (List Char × List Char)) (key : List Char)
      (acc : List Char) (eacc : List Char)

/-- The markup lexer: one character per step, total on every input.  Tag and
attribute names are lowercased while read, attributes accumulate in reverse
and are reversed on emission, entities are decoded in text and in quoted
attribute values, and an unterminated construct at end of input is dropped
(a pending text entity is flushed as literal text). -/
def lexM : LMode → List Char → List Tok
  | .txt, [] => []
  | .ent acc, [] => [Tok.text ('&' :: acc)]
  | _, [] => []
  | .txt, c :: cs =>
    if c = '<' then lexM .tagStart cs
    else if c = '&' then lexM (.ent []) cs
    else pushText c (lexM .txt cs)
  | .ent acc, c :: cs =>
    if c = ';' then pushTextStr (decodeEnt acc) (lexM .txt cs)
    else if isEntChar c then lexM (.ent (acc ++ [c])) cs
    else if c = '<' then pushTextStr ('&' :: acc) (lexM .tagStart cs)
    else if c = '&' then pushTextStr ('&' :: acc) (lexM (.ent []) cs)
    else pushTextStr ('&' :: acc ++ [c]) (lexM .txt cs)
  | .tagStart, c :: cs =>
    if c = '/' then lexM (.closeNm []) cs
    else if isAlphaB c then lexM (.openNm [charLower c]) cs
    else if c = '!' then lexM .bang cs
    else if c = '<' then pushText '<' (lexM .tagStart cs)
    else if c = '&' then pushText '<' (lexM (.ent []) cs)
    else pushText '<' (pushText c (lexM .txt cs))
  | .bang, c :: cs =>
    if c = '>' then lexM .txt cs else lexM .bang cs
  | .closeNm acc, c :: cs =>
    if isTagChar c then lexM (.closeNm (acc ++ [charLower c])) cs
    else if c = '>' then Tok.closeTag acc :: lexM .txt cs
    else lexM (.closeJunk acc) cs
  | .closeJunk acc, c :: cs =>
    if c = '>' then Tok.closeTag acc :: lexM .txt cs
    else lexM (.closeJunk acc) cs
  | .openNm acc, c :: cs =>
    if isTagChar c then lexM (.openNm (acc ++ [charLower c])) cs
    else if c = '>' then Tok.openTag acc [] :: lexM .txt cs
    else lexM (.inTag acc []) cs
  | .inTag nm attrs, c :: cs =>
    if c = '>' then Tok.openTag nm attrs.reverse :: lexM .txt cs
    else if isAttrChar c then lexM (.attrNm nm attrs [charLower c]) cs
    else lexM (.inTag nm attrs) cs
  | .attrNm nm attrs key, c :: cs =>
    if isAttrChar c then lexM (.attrNm nm attrs (key ++ [charLower c])) cs
    else if c = '=' then lexM (.attrEq nm attrs key) cs
    else if c = '>' then Tok.openTag nm ((key, []) :: attrs).reverse :: lexM .txt cs
    else lexM (.inTag nm ((key, []) :: attrs)) cs
  | .attrEq nm attrs key, c :: cs =>
    if c = '"' then lexM (.attrVal nm attrs key []) cs
    else if c = '>' then Tok.openTag nm ((key, []) :: attrs).reverse :: lexM .txt cs
    else lexM (.inTag nm ((key, []) :: attrs)) cs
  | .attrVal nm attrs key acc, c :: cs =>
    if c = '"' then lexM (.inTag nm ((key, acc) :: attrs)) cs
    else if c = '&' then lexM (.attrEnt nm attrs key acc []) cs
    else lexM (.attrVal nm attrs key (acc ++ [c])) cs
  | .attrEnt nm attrs key acc eacc, c :: cs =>
    if c = ';' then lexM (.attrVal nm attrs key (acc ++ decodeEnt eacc)) cs
    else if isEntChar c then lexM (.attrEnt nm attrs key acc (eacc ++ [c])) cs
    else if c = '"' then lexM (.inTag nm ((key, acc ++ '&' :: eacc) :: attrs)) cs
    else if c = '&' then lexM (.attrEnt nm attrs key (acc ++ '&' :: eacc) []) cs
    else lexM (.attrVal nm attrs key (acc ++ '&' :: eacc ++ [c])) cs


/-- Escape one text character for markup output. -/
def escChar (c : Char) : List Char :=
  if c = '&' then ['&', 'a', 'm', 'p', ';']
  else if c = '<' then ['&', 'l', 't', ';']
  else if c = '>' then ['&', 'g', 't', ';']
  else [c]

/-- Escape a text run. -/
def escTextC : List Char → List Char
  | [] => []
  | c :: cs => escChar c ++ escTextC cs

/-- Escape one character of a double-quoted attribute value. -/
def escAttrChar (c : Char) : List Char :=
  if c = '&' then ['&', 'a', 'm', 'p', ';']
  else if c = '"' then ['&', 'q', 'u', 'o', 't', ';']
  else if c = '<' then ['&', 'l', 't', ';']
  else if c = '>' then ['&', 'g', 't', ';']
  else [c]

/-- Escape an attribute value. -/
def escAttrC : List Char → List Char
  | [] => []
  | c :: cs => escAttrChar c ++ escAttrC cs

/-- Print one attribute as a leading space, the name, and the quoted value. -/
def printAttrC (a : List Char × List Char) : List Char :=
  ' ' :: a.1 ++ '=' :: '"' :: escAttrC a.2 ++ ['"']

/-- Print an attribute list. -/
def printAttrsC : List (List Char × List Char) → List Char
  | [] => []
  | a :: rest => printAttrC a ++ printAttrsC rest

/-- Print one token. -/
def printTokC : Tok → List Char
  | .text s => escTextC s
  | .openTag nm attrs => '<' :: nm ++ printAttrsC attrs ++ ['>']
  | .closeTag nm => '<' :: '/' :: nm ++ ['>']

/-- Print a token list. -/
def printToksC : List Tok → List Char
  | [] => []
  | t :: ts => printTokC t ++ printToksC ts

/-- The tag allow-list of the sanitizeHtml call (lines 188-229). -/
def allowedTagsL : List (List Char) :=
  ["div", "span", "p", "h1", "h2", "h3", "h4", "h5", "h6", "a", "button", "input",
    "form", "label", "select", "option", "ul", "ol", "li", "nav", "header", "footer",
    "main", "section", "article", "aside", "img", "table", "tr", "td", "th", "tbody",
    "thead", "tfoot", "br", "hr", "strong", "em", "b", "i"].map String.toList

/-- Membership in the tag allow-list. -/
def allowedTagB (n : List Char) : Bool := allowedTagsL.contains n

/-- Disallowed tags whose text content is dropped rather than kept. -/
def nonTextTagB (n : List Char) : Bool :=
  n == "script".toList || n == "style".toList || n == "textarea".toList ||
    n == "option".toList

/-- The attribute allow-list of the sanitizeHtml call (line 231), with the
data- and aria- wildcards. -/
def allowedAttrB (k : List Char) : Bool :=
  (["class", "id", "role", "type", "name", "value", "placeholder", "alt", "src",
      "href", "target"].map String.toList).contains k ||
    isPreB "data-".toList k || isPreB "aria-".toList k

/-- URL-bearing attributes subject to the scheme allow-list. -/
def urlAttrB (k : List Char) : Bool := k == "src".toList || k == "href".toList

/-- Scheme check of the allowedSchemes option: no scheme, or one of http,
https, data (case-insensitive). -/
def schemeOkB (v : List Char) : Bool :=
  let pre := v.takeWhile (fun c => c != ':')
  if pre.length == v.length then true
  else
    (pre.map charLower) == "http".toList || (pre.map charLower) == "https".toList ||
      (pre.map charLower) == "data".toList

/-- A normalised attribute name: nonempty, in lowercase letters, digits and
dashes.  The lexer only ever produces such names, so requiring them in the
sanitiser does not change the behaviour of reduce. -/
def keyOkB (k : List Char) : Bool := !k.isEmpty && k.all isAttrLower

/-- One attribute survives sanitisation: an allowed, normalised name, and an
allowed scheme when URL-bearing. -/
def attrNormB (a : List Char × List Char) : Bool :=
  allowedAttrB a.1 && keyOkB a.1 && (!urlAttrB a.1 || schemeOkB a.2)

/-- Drop disallowed attributes. -/
def filterAttrs (attrs : List (List Char × List Char)) : List (List Char × List Char) :=
  attrs.filter attrNormB

/-- Discard-mode sanitisation over the token stream: allowed tags are kept
with filtered attributes, other tags are dropped; inside a dropped non-text
tag (script, style, textarea, option) everything up to its closing tag is
dropped, while other disallowed tags keep their inner text. -/
def sanToks : Option (List Char) → List Tok → List Tok
  | _, [] => []
  | some n, .closeTag m :: ts => if m == n then sanToks none ts else sanToks (some n) ts
  | some n, _ :: ts => sanToks (some n) ts
  | none, .text s :: ts => .text s :: sanToks none ts
  | none, .openTag nm attrs :: ts =>
    if allowedTagB nm then .openTag nm (filterAttrs attrs) :: sanToks none ts
    else if nonTextTagB nm then sanToks (some nm) ts
    else sanToks none ts
  | none, .closeTag nm :: ts =>
    if allowedTagB nm then .closeTag nm :: sanToks none ts
    else sanToks none ts

/-- Push one token onto a merged list: empty texts are dropped and adjacent
text runs are coalesced. -/
def pushTok (t : Tok) (ts : List Tok) : List Tok :=
  match t with
  | .text s =>
    if s.isEmpty then ts
    else
      match ts with
      | .text t2 :: rest => .text (s ++ t2) :: rest
      | _ => .text s :: ts
  | _ => t :: ts

/-- Coalesce adjacent text runs and drop empty ones. -/
def mergeTexts (ts : List Tok) : List Tok := ts.foldr pushTok []

/-- The HTML reduction of _getDOMSnapshot: lex the document, sanitise the
token stream in discard mode, coalesce text, and print with entity
escaping. -/
def reduce (s : String) : String :=
  String.mk (printToksC (mergeTexts (sanToks none (lexM .txt s.toList))))


/-- A well-formed lowercase tag name: a lowercase letter followed by lowercase
letters and digits. -/
def tagNameOk (nm : List Char) : Bool :=
  match nm with
  | [] => false
  | c :: r => (97 ≤ c.toNat && c.toNat ≤ 122) && (c :: r).all isNmChar

/-- Tag-level normality of one token: tags are allowed with normalised
attributes. -/
def tagOkB : Tok → Bool
  | .text _ => true
  | .openTag nm attrs => allowedTagB nm && attrs.all attrNormB
  | .closeTag nm => allowedTagB nm

/-- Text-level normality of one token: text runs are nonempty. -/
def textOkB : Tok → Bool
  | .text s => !s.isEmpty
  | _ => true

/-- Full normality of one token. -/
def tokOkB (t : Tok) : Bool := tagOkB t && textOkB t

/-- No two adjacent text runs. -/
def noAdjTextB : List Tok → Bool
  | .text _ :: .text _ :: _ => false
  | _ :: ts => noAdjTextB ts
  | [] => true

/-- Does the list not start with a text run. -/
def headNotText : List Tok → Bool
  | .text _ :: _ => false
  | _ => true

/-- A normalised token stream: every token normal and no adjacent text runs.
The sanitised merged stream is always normal, and lexing the printed form of
a normal stream recovers it exactly. -/
def normB (ts : List Tok) : Bool := ts.all tokOkB && noAdjTextB ts

/-! ## Helper lemmas -/

/-- Prepending the fixed failure prefix always yields a nonempty reason. -/
theorem aiPrefixNe (m : String) : ("AI analysis failed: " ++ m) ≠ "" := by
  intro hcon
  have hlen := congrArg String.length hcon
  rw [String.length_append] at hlen
  have h20 : ("AI analysis failed: " : String).length = 20 := rfl
  have h0 : ("" : String).length = 0 := rfl
  omega

/-- Whenever check resolves, the result component is the interpreted result. -/
theorem check_ok_result (env : CheckEnv) (r : VisualTestResult) (arts : List Artifact)
    (hok : check env = .ok (r, arts)) : r = interpretedResult env := by
  unfold check at hok
  repeat' split at hok
  all_goals cases hok
  all_goals rfl

/-- C1: if the model invocation throws an Error with message m (interpretation
itself cannot throw past the inner catch), check resolves with a result whose
success is false and whose reason contains m, and attaches nothing. -/
theorem check_invoke_throw_resolves (env : CheckEnv) (m : String) (n1 : Nat) (html : String)
    (h1 : env.screenshot1 = .ok n1) (h2 : env.pageContent = .ok html)
    (h3 : env.invokeResult = .error (.error m)) :
    ∃ r, check env = .ok (r, []) ∧ r.success = Json.bool false ∧
      ∃ s, r.reason = Json.str s ∧ containsStr s m := by
  refine ⟨errorResult (.error m), ?_, rfl, "AI analysis failed: " ++ m, rfl, ?_⟩
  · simp [check, h1, h2, interpretedResult, h3, errorResult, condLocators, Json.truthy,
      jsLen]
  · exact ⟨"AI analysis failed: ", "", by simp⟩

/-- C1 witness: the theorem applied to a concrete environment whose model call
rejects with the message boom. -/
theorem check_invoke_throw_resolves_witness :
    ∃ r, check c1WitEnv = .ok (r, []) ∧ r.success = Json.bool false ∧
      ∃ s, r.reason = Json.str s ∧ containsStr s "boom" :=
  check_invoke_throw_resolves c1WitEnv "boom" 0 "" rfl rfl rfl

/-- C10: a falsy model content (empty string or null/undefined) takes the
thrown-Error path, not the free-text fallback: check resolves with success
false and the exact reason AI analysis failed: No response from AI. -/
theorem check_empty_content (env : CheckEnv) (c : Content) (n1 : Nat) (html : String)
    (h1 : env.screenshot1 = .ok n1) (h2 : env.pageContent = .ok html)
    (h3 : env.invokeResult = .ok c) (h4 : contentFalsy c = true) :
    check env =
      .ok (⟨Json.bool false, Json.str "AI analysis failed: No response from AI",
        Json.arr []⟩, []) := by
  simp [check, h1, h2, interpretedResult, h3, h4, errorResult, jsErrMessage, condLocators,
    Json.truthy, jsLen]

/-- C10 witness: the theorem applied at an empty string content. -/
theorem check_empty_content_witness :
    check c10WitEnv =
      .ok (⟨Json.bool false, Json.str "AI analysis failed: No response from AI",
        Json.arr []⟩, []) :=
  check_empty_content c10WitEnv (.str "") 0 "" rfl rfl rfl rfl

/-- C3: when strict JSON parsing of the raw text fails, the interpreted result
succeeds exactly when the lowercased text includes one of the tokens true,
yes, correct; the reason is the full raw text and the locators list is
empty. -/
theorem interpret_fallback (s : String) (hp : jsonParse s = none) :
    interpretContent s =
      ⟨Json.bool (hasSub (lowerStr s) "true" || hasSub (lowerStr s) "yes" ||
          hasSub (lowerStr s) "correct"),
        Json.str s, Json.arr []⟩ := by
  simp [interpretContent, hp, fallbackResult, heurSuccess]

/-- C3 witness: the theorem applied to a raw text with no trigger token; the
heuristic evaluates to false. -/
theorem interpret_fallback_witness :
    jsonParse "Nothing matches." = none ∧
      interpretContent "Nothing matches." =
        ⟨Json.bool false, Json.str "Nothing matches.", Json.arr []⟩ :=
  ⟨rfl, (interpret_fallback "Nothing matches." rfl).trans rfl⟩

/-- C4 counterexample: a valid JSON object carrying an empty-string reason is
not interpreted to its parsed fields: the falsy empty string is replaced by
the default even though the field is present, contradicting the claim that
only missing fields are defaulted. -/
theorem interpret_json_cex :
    (jsonParse "\x7b\"success\":true,\"reason\":\"\",\"locators\":[]\x7d").isSome = true ∧
      interpretContent "\x7b\"success\":true,\"reason\":\"\",\"locators\":[]\x7d" =
        ⟨Json.bool true, Json.str "No reason provided", Json.arr []⟩ ∧
      ("No reason provided" : String) ≠ "" :=
  ⟨rfl, rfl, by decide⟩

/-- C4 amended: for raw text parsing to a JSON object whose present fields are
truthy and well typed (boolean success, nonempty string reason, array
locators), interpretation yields those fields, defaulting a missing success
to false, a missing (or empty, by JS falsiness) reason to No reason provided,
and missing locators to the empty list. -/
theorem interpret_json_fields (s : String) (fs : List (String × Json))
    (hp : jsonParse s = some (.obj fs))
    (b : Bool) (r : String) (ls : List Json)
    (hs : lookupLast fs "success" = some (.bool b) ∨
      (lookupLast fs "success" = none ∧ b = false))
    (hr : (lookupLast fs "reason" = some (.str r) ∧ r ≠ "") ∨
      (lookupLast fs "reason" = none ∧ r = "No reason provided"))
    (hl : lookupLast fs "locators" = some (.arr ls) ∨
      (lookupLast fs "locators" = none ∧ ls = [])) :
    interpretContent s = ⟨Json.bool b, Json.str r, Json.arr ls⟩ := by
  have hsu : jsOr (lookupLast fs "success") (Json.bool false) = Json.bool b := by
    rcases hs with h | ⟨h, rfl⟩
    · rw [h]; cases b <;> simp [jsOr, Json.truthy]
    · rw [h]; rfl
  have hre : jsOr (lookupLast fs "reason") (Json.str "No reason provided") = Json.str r := by
    rcases hr with ⟨h, hne⟩ | ⟨h, rfl⟩
    · rw [h]; simp [jsOr, Json.truthy, bne_iff_ne, hne]
    · rw [h]; rfl
  have hlo : jsOr (lookupLast fs "locators") (Json.arr []) = Json.arr ls := by
    rcases hl with h | ⟨h, rfl⟩
    · rw [h]; simp [jsOr, Json.truthy]
    · rw [h]; rfl
  simp [interpretContent, hp, getField, hsu, hre, hlo]

/-- C4 amended witness: the concrete instance of the claim, with all three
fields present and well typed. -/
theorem interpret_json_fields_witness :
    interpretContent "\x7b\"success\":true,\"reason\":\"ok\",\"locators\":[\"#x\"]\x7d" =
      ⟨Json.bool true, Json.str "ok", Json.arr [Json.str "#x"]⟩ :=
  interpret_json_fields "\x7b\"success\":true,\"reason\":\"ok\",\"locators\":[\"#x\"]\x7d"
    [("success", Json.bool true), ("reason", Json.str "ok"),
      ("locators", Json.arr [Json.str "#x"])]
    rfl true "ok" [Json.str "#x"]
    (Or.inl rfl) (Or.inl ⟨rfl, by decide⟩) (Or.inl rfl)

/-- A field that is absent, falsy, or boolean flows through the success
defaulting as a boolean. -/
theorem jsOr_typed_bool (o : Option Json)
    (h : ∀ v, o = some v → v.truthy = true → ∃ b, v = Json.bool b) :
    ∃ b, jsOr o (Json.bool false) = Json.bool b := by
  cases o with
  | none => exact ⟨false, rfl⟩
  | some v =>
    cases ht : v.truthy with
    | false => exact ⟨false, by simp [jsOr, ht]⟩
    | true =>
      obtain ⟨b, rfl⟩ := h v rfl ht
      exact ⟨b, by simp [jsOr, ht]⟩

/-- A field that is absent, falsy, or a string flows through the reason
defaulting as a nonempty string. -/
theorem jsOr_typed_str (o : Option Json)
    (h : ∀ v, o = some v → v.truthy = true → ∃ s, v = Json.str s) :
    ∃ s, jsOr o (Json.str "No reason provided") = Json.str s ∧ s ≠ "" := by
  cases o with
  | none => exact ⟨"No reason provided", rfl, by decide⟩
  | some v =>
    cases ht : v.truthy with
    | false => exact ⟨"No reason provided", by simp [jsOr, ht], by decide⟩
    | true =>
      obtain ⟨s, rfl⟩ := h v rfl ht
      have hne : s ≠ "" := by simpa [Json.truthy, bne_iff_ne] using ht
      exact ⟨s, by simp [jsOr, ht], hne⟩

/-- A field that is absent, falsy, or an array flows through the locators
defaulting as a list. -/
theorem jsOr_typed_arr (o : Option Json)
    (h : ∀ v, o = some v → v.truthy = true → ∃ l, v = Json.arr l) :
    ∃ l, jsOr o (Json.arr []) = Json.arr l := by
  cases o with
  | none => exact ⟨[], rfl⟩
  | some v =>
    cases ht : v.truthy with
    | false => exact ⟨[], by simp [jsOr, ht]⟩
    | true =>
      obtain ⟨l, rfl⟩ := h v rfl ht
      exact ⟨l, by simp [jsOr, ht]⟩

/-- Interpretation of a nonempty raw string whose JSON fields, if it parses,
are well typed, produces a typed result. -/
theorem interpret_typed (s : String) (hne : s ≠ "")
    (hfw : ∀ j, jsonParse s = some j → fieldsWellTyped j) :
    typedResult (interpretContent s) := by
  unfold interpretContent
  cases hj : jsonParse s with
  | none => exact ⟨⟨_, rfl⟩, ⟨s, rfl, hne⟩, ⟨[], rfl⟩⟩
  | some j =>
    have hw := hfw j hj
    cases j
    case null => exact ⟨⟨_, rfl⟩, ⟨s, rfl, hne⟩, ⟨[], rfl⟩⟩
    all_goals
      exact ⟨jsOr_typed_bool _ hw.1, jsOr_typed_str _ hw.2.1, jsOr_typed_arr _ hw.2.2⟩

/-- C2 counterexample: on the valid JSON model output with a truthy string in
the success field, check resolves, but the returned success is the string
yes, not a boolean, refuting the claimed typing invariant. -/
theorem check_c2_cex :
    check c2Env =
      .ok (⟨Json.str "yes", Json.str "No reason provided", Json.arr []⟩, []) ∧
      Json.str "yes" ≠ Json.bool true ∧ Json.str "yes" ≠ Json.bool false :=
  ⟨rfl, fun hcon => Json.noConfusion hcon, fun hcon => Json.noConfusion hcon⟩

/-- C2 amended: whenever check resolves, all three fields are present, and the
result has a boolean success, a nonempty string reason, and a list of
locators provided the model content is well formed: an error, a falsy value,
a value stringifying to a nonempty non-JSON string, or JSON whose recognised
fields are absent, falsy, or well typed.  A truthy ill-typed field passes
through the defaulting idiom unchanged, which is what the original claim
misses. -/
theorem check_result_typed (env : CheckEnv) (r : VisualTestResult) (arts : List Artifact)
    (hok : check env = .ok (r, arts))
    (hwf : ∀ c, env.invokeResult = .ok c → wellFormedContent c) :
    typedResult r := by
  have hr := check_ok_result env r arts hok
  subst hr
  cases hinv : env.invokeResult with
  | error e =>
    have hred : interpretedResult env = errorResult e := by
      simp [interpretedResult, hinv]
    rw [hred]
    exact ⟨⟨false, rfl⟩, ⟨_, rfl, aiPrefixNe _⟩, ⟨[], rfl⟩⟩
  | ok c =>
    have hwfc := hwf c hinv
    have hred : interpretedResult env =
        if contentFalsy c = true then errorResult (JsErr.error "No response from AI")
        else interpretContent (contentToString c) := by
      simp [interpretedResult, hinv]
    rw [hred]
    cases hf : contentFalsy c with
    | true =>
      exact ⟨⟨false, rfl⟩, ⟨_, rfl, aiPrefixNe _⟩, ⟨[], rfl⟩⟩
    | false =>
      have hne : contentToString c ≠ "" := by
        rcases hwfc.1 with hft | hns
        · rw [hf] at hft; cases hft
        · exact hns
      exact interpret_typed (contentToString c) hne hwfc.2

/-- C2 amended witness: the theorem applied to a concrete well-formed run
whose model output is plain affirmative text. -/
theorem check_result_typed_witness :
    typedResult ⟨Json.bool true, Json.str "Yes.", Json.arr []⟩ :=
  check_result_typed c2WitEnv ⟨Json.bool true, Json.str "Yes.", Json.arr []⟩ [] rfl
    (fun c hc => by
      have hc2 : (Except.ok (Content.str "Yes.") : Except JsErr Content) = Except.ok c := hc
      cases hc2
      exact ⟨Or.inr (by decide), fun j hj =>
        Option.noConfusion ((rfl : (none : Option Json) = jsonParse "Yes.").trans hj)⟩)

/-- C5 counterexample: with a nonempty interpreted locators list and a failing
re-screenshot, check rejects instead of returning the interpreted result. -/
theorem check_c5_cex :
    check c5Env = .error (.error "page closed") ∧
      condLocators (interpretedResult c5Env).locators = true :=
  ⟨rfl, rfl⟩

/-- C5 amended: per-locator highlight failures never affect the returned
result: when style injection, the re-screenshot and the attachment succeed,
check returns the interpreted result unchanged whatever the per-locator
outcomes are; a failure of one of those three page operations, however,
propagates as a rejection (see the counterexample). -/
theorem check_phase6 (env : CheckEnv) (c : Content) (n1 n2 : Nat) (html : String)
    (h1 : env.screenshot1 = .ok n1) (h2 : env.pageContent = .ok html)
    (h3 : env.invokeResult = .ok c) (h4 : contentFalsy c = false)
    (h5 : condLocators (interpretContent (contentToString c)).locators = true)
    (h6 : env.addStyleTag = .ok ()) (h7 : env.screenshot2 = .ok n2)
    (h8 : env.attachResult = .ok ()) :
    check env = .ok (interpretContent (contentToString c),
      [⟨"ai-analysis-highlighted", "image/png", n2⟩]) := by
  have hi : interpretedResult env = interpretContent (contentToString c) := by
    simp [interpretedResult, h3, h4]
  by_cases hit : (iterItems (interpretContent (contentToString c)).locators).isEmpty = true
  · simp [check, h1, h2, hi, h5, highlightElements, hit, h6, h7, h8]
  · simp [check, h1, h2, hi, h5, highlightElements, hit, h6, h7, h8]

/-- C5 amended witness: a run in which every locator resolution throws still
returns the interpreted result and the artifact. -/
theorem check_phase6_witness :
    check c5WitEnv =
      .ok (interpretContent
          (contentToString
            (.str "\x7b\"success\":true,\"reason\":\"ok\",\"locators\":[\"#a\"]\x7d")),
        [⟨"ai-analysis-highlighted", "image/png", 7⟩]) :=
  check_phase6 c5WitEnv
    (.str "\x7b\"success\":true,\"reason\":\"ok\",\"locators\":[\"#a\"]\x7d")
    0 7 "" rfl rfl rfl rfl rfl rfl rfl rfl

/-- C6: when the page operations of the attachment phase succeed, the named
image/png artifact of the second screenshot is attached exactly when the
interpreted locators list is nonempty. -/
theorem check_attach_iff (env : CheckEnv) (c : Content) (n1 n2 : Nat) (html : String)
    (ls : List Json)
    (h1 : env.screenshot1 = .ok n1) (h2 : env.pageContent = .ok html)
    (h3 : env.invokeResult = .ok c) (h4 : contentFalsy c = false)
    (hloc : (interpretContent (contentToString c)).locators = Json.arr ls)
    (h6 : env.addStyleTag = .ok ()) (h7 : env.screenshot2 = .ok n2)
    (h8 : env.attachResult = .ok ()) :
    check env = .ok (interpretContent (contentToString c),
      if ls.isEmpty then []
      else [⟨"ai-analysis-highlighted", "image/png", n2⟩]) := by
  have hi : interpretedResult env = interpretContent (contentToString c) := by
    simp [interpretedResult, h3, h4]
  cases ls with
  | nil =>
    have hc : condLocators (interpretContent (contentToString c)).locators = false := by
      rw [hloc]; rfl
    simp [check, h1, h2, hi, hc]
  | cons x xs =>
    have hc2 : condLocators (Json.arr (x :: xs)) = true := by
      simp [condLocators, Json.truthy, jsLen]
    have hc : condLocators (interpretContent (contentToString c)).locators = true := by
      rw [hloc, hc2]
    simp [check, h1, h2, hi, hc, hc2, hloc, iterItems, highlightElements, h6, h7, h8]

/-- C6 witness: a run with two interpreted locators attaches the artifact. -/
theorem check_attach_iff_witness :
    check c6WitEnv =
      .ok (interpretContent
          (contentToString
            (.str "\x7b\"success\":true,\"reason\":\"ok\",\"locators\":[\"#a\",\"#b\"]\x7d")),
        [⟨"ai-analysis-highlighted", "image/png", 9⟩]) :=
  check_attach_iff c6WitEnv
    (.str "\x7b\"success\":true,\"reason\":\"ok\",\"locators\":[\"#a\",\"#b\"]\x7d")
    0 9 "" [Json.str "#a", Json.str "#b"] rfl rfl rfl rfl rfl rfl rfl rfl

/-- C7 counterexample: highlightElements rejects on a nonempty list when the
style injection (awaited outside any try) fails, so it can throw. -/
theorem highlight_style_throw :
    highlightElements c7Env [Json.str "#a"] = .error (.error "style failed") := rfl

/-- C7 amended: highlightElements is an unconditional no-op on the empty list;
on any list, once the style injection succeeds, it resolves every locator
independently, marking the first matching element of each found locator, and
a locator that throws or matches nothing is skipped without aborting the
rest and without an exception; a style-injection failure, however,
propagates (see the counterexample). -/
theorem highlight_best_effort (env : CheckEnv) (items : List Json)
    (hstyle : env.addStyleTag = .ok ()) :
    highlightElements env [] = .ok [] ∧
      highlightElements env items =
        .ok (items.filter (fun i => env.locRes i == LocRes.found)) := by
  refine ⟨rfl, ?_⟩
  cases items with
  | nil => rfl
  | cons x xs => simp [highlightElements, hstyle]

/-- C7 amended witness: of two locators, the second throwing, exactly the
first is marked and no exception escapes. -/
theorem highlight_best_effort_witness :
    highlightElements c7WitEnv [Json.str "#a", Json.str "#bad"] = .ok [Json.str "#a"] :=
  ((highlight_best_effort c7WitEnv [Json.str "#a", Json.str "#bad"] rfl).2).trans rfl

/-- C8: module initialisation fails with a configuration error as soon as one
of the four required values is missing (unset or empty), and otherwise
constructs the client with the optional API version defaulted to the fixed
version string and an automatic retry count of 2. -/
theorem initLlm_spec (e : AzureEnv) :
    ((truthyEnv e.apiKey = false ∨ truthyEnv e.endpoint = false ∨
        truthyEnv e.deploymentName = false ∨ truthyEnv e.resourceName = false) →
      ∃ m, initLlm e = .error m) ∧
    (truthyEnv e.apiKey = true → truthyEnv e.endpoint = true →
      truthyEnv e.deploymentName = true → truthyEnv e.resourceName = true →
      initLlm e = .ok ⟨e.apiKey.getD "", e.endpoint.getD "", e.resourceName.getD "",
        e.deploymentName.getD "", e.apiVersion.getD "2024-12-01-preview", 2⟩) := by
  constructor
  · intro hmiss
    cases hK : truthyEnv e.apiKey with
    | false =>
      exact ⟨"Missing AZURE_OPENAI_API_KEY environment variable.", by simp [initLlm, hK]⟩
    | true =>
      cases hE : truthyEnv e.endpoint with
      | false =>
        exact ⟨"Missing AZURE_OPENAI_ENDPOINT environment variable.",
          by simp [initLlm, hK, hE]⟩
      | true =>
        cases hD : truthyEnv e.deploymentName with
        | false =>
          exact ⟨"Missing AZURE_OPENAI_DEPLOYMENT_NAME environment variable.",
            by simp [initLlm, hK, hE, hD]⟩
        | true =>
          cases hR : truthyEnv e.resourceName with
          | false =>
            exact ⟨"Missing AZURE_OPENAI_RESOURCE_NAME environment variable.",
              by simp [initLlm, hK, hE, hD, hR]⟩
          | true => rcases hmiss with h | h | h | h <;> simp_all
  · intro hK hE hD hR
    simp [initLlm, hK, hE, hD, hR]

/-- C8 witness: a fully populated environment without an API version yields
the defaulted version and retry count 2, and an environment missing the
resource name yields a configuration error. -/
theorem initLlm_spec_witness :
    initLlm c8EnvFull =
      .ok ⟨"key", "https://endpoint", "res", "gpt", "2024-12-01-preview", 2⟩ ∧
      ∃ m, initLlm c8EnvMissing = .error m :=
  ⟨(initLlm_spec c8EnvFull).2 rfl rfl rfl rfl,
    (initLlm_spec c8EnvMissing).1 (Or.inr (Or.inr (Or.inr rfl)))⟩

/-! ## Reducer proofs: character classes -/

/-- Lowercasing an uppercase letter adds 32 to its code point. -/
theorem toNat_charLower (c : Char) (h1 : 65 ≤ c.toNat) (h2 : c.toNat ≤ 90) :
    (charLower c).toNat = c.toNat + 32 := by
  unfold charLower
  rw [if_pos (by simp only [Bool.and_eq_true, decide_eq_true_eq]; exact ⟨h1, h2⟩)]
  have hv : c.toNat + 32 < 55296 := by omega
  unfold Char.ofNat
  rw [dif_pos (Or.inl hv)]
  simp [Char.ofNatAux, Char.toNat, UInt32.toNat, BitVec.toNat_ofNatLt]

/-- Lowercasing fixes every character that is not an uppercase letter. -/
theorem charLower_not_upper (c : Char) (h : ¬(65 ≤ c.toNat ∧ c.toNat ≤ 90)) :
    charLower c = c := by
  unfold charLower
  rw [if_neg]
  simp only [Bool.and_eq_true, decide_eq_true_eq]
  exact h

/-- Lowercasing fixes lowercase letters and digits. -/
theorem charLower_nm (c : Char) (h : isNmChar c = true) : charLower c = c := by
  apply charLower_not_upper
  simp only [isNmChar, Bool.or_eq_true, Bool.and_eq_true, decide_eq_true_eq] at h
  omega

/-- Lowercasing fixes normalised attribute-name characters. -/
theorem charLower_attrLower (c : Char) (h : isAttrLower c = true) : charLower c = c := by
  apply charLower_not_upper
  simp only [isAttrLower, isNmChar, Bool.or_eq_true, Bool.and_eq_true, decide_eq_true_eq,
    beq_iff_eq] at h
  rcases h with (h | h) | h
  · omega
  · omega
  · subst h; decide

/-- Name characters are accepted while lexing a tag name. -/
theorem isNmChar_isTagChar (c : Char) (h : isNmChar c = true) : isTagChar c = true := by
  simp only [isNmChar, Bool.or_eq_true, Bool.and_eq_true, decide_eq_true_eq] at h
  simp only [isTagChar, isAlphaB, Bool.or_eq_true, Bool.and_eq_true, decide_eq_true_eq]
  omega

/-- Normalised attribute-name characters are accepted while lexing an
attribute name. -/
theorem isAttrLower_isAttrChar (c : Char) (h : isAttrLower c = true) :
    isAttrChar c = true := by
  simp only [isAttrLower, isNmChar, Bool.or_eq_true, Bool.and_eq_true, decide_eq_true_eq,
    beq_iff_eq] at h
  simp only [isAttrChar, isTagChar, isAlphaB, Bool.or_eq_true, Bool.and_eq_true,
    decide_eq_true_eq, beq_iff_eq]
  rcases h with (h | h) | h
  · exact Or.inl (Or.inl (Or.inr (by omega)))
  · exact Or.inl (Or.inr (by omega))
  · exact Or.inr h

/-! ## Reducer proofs: the printed form of a normal stream lexes back -/

/-- Lexer step on an ordinary text character. -/
theorem lexM_txt_ord (c : Char) (h1 : c ≠ '<') (h2 : c ≠ '&') (cs : List Char) :
    lexM .txt (c :: cs) = pushText c (lexM .txt cs) := by
  simp only [lexM]
  rw [if_neg h1, if_neg h2]

/-- Lexing the escaped form of a text run prepends it to the lexing of the
remainder. -/
theorem lex_escText (s rest : List Char) :
    lexM .txt (escTextC s ++ rest) = pushTextStr s (lexM .txt rest) := by
  induction s with
  | nil => rfl
  | cons c s ih =>
    by_cases h1 : c = '&'
    · subst h1
      exact congrArg (pushText '&') ih
    by_cases h2 : c = '<'
    · subst h2
      exact congrArg (pushText '<') ih
    by_cases h3 : c = '>'
    · subst h3
      exact congrArg (pushText '>') ih
    · show lexM .txt ((escChar c ++ escTextC s) ++ rest) = _
      rw [escChar, if_neg h1, if_neg h2, if_neg h3]
      show lexM .txt (c :: (escTextC s ++ rest)) = _
      rw [lexM_txt_ord c h2 h1, ih]
      rfl

/-- Lexer step on an ordinary attribute-value character. -/
theorem lexM_attrVal_ord (nm : List Char) (attrs : List (List Char × List Char))
    (key acc : List Char) (c : Char) (h1 : c ≠ '"') (h2 : c ≠ '&') (cs : List Char) :
    lexM (.attrVal nm attrs key acc) (c :: cs) =
      lexM (.attrVal nm attrs key (acc ++ [c])) cs := by
  simp only [lexM]
  rw [if_neg h1, if_neg h2]

/-- Lexing the escaped form of an attribute value inside quotes accumulates
exactly that value and returns to the inside of the tag. -/
theorem lex_escAttr (nm : List Char) (attrs : List (List Char × List Char))
    (key : List Char) (v : List Char) :
    ∀ acc rest, lexM (.attrVal nm attrs key acc) (escAttrC v ++ '"' :: rest) =
      lexM (.inTag nm ((key, acc ++ v) :: attrs)) rest := by
  induction v with
  | nil =>
    intro acc rest
    rw [List.append_nil]
    rfl
  | cons c v ih =>
    intro acc rest
    by_cases h1 : c = '&'
    · subst h1
      exact (ih (acc ++ ['&']) rest).trans (by rw [List.append_assoc, List.singleton_append])
    by_cases h2 : c = '"'
    · subst h2
      exact (ih (acc ++ ['"']) rest).trans (by rw [List.append_assoc, List.singleton_append])
    by_cases h3 : c = '<'
    · subst h3
      exact (ih (acc ++ ['<']) rest).trans (by rw [List.append_assoc, List.singleton_append])
    by_cases h4 : c = '>'
    · subst h4
      exact (ih (acc ++ ['>']) rest).trans (by rw [List.append_assoc, List.singleton_append])
    · show lexM (.attrVal nm attrs key acc) ((escAttrChar c ++ escAttrC v) ++ '"' :: rest) = _
      rw [escAttrChar, if_neg h1, if_neg h2, if_neg h3, if_neg h4]
      show lexM (.attrVal nm attrs key acc) (c :: (escAttrC v ++ '"' :: rest)) = _
      rw [lexM_attrVal_ord nm attrs key acc c h2 h1]
      exact (ih (acc ++ [c]) rest).trans (by rw [List.append_assoc, List.singleton_append])

/-- Lexing the remaining characters of a normalised attribute name accumulates
them and moves past the equals sign. -/
theorem lex_attrKey (nm : List Char) (attrs : List (List Char × List Char))
    (k : List Char) (hk : k.all isAttrLower = true) :
    ∀ keyAcc rest, lexM (.attrNm nm attrs keyAcc) (k ++ '=' :: rest) =
      lexM (.attrEq nm attrs (keyAcc ++ k)) rest := by
  induction k with
  | nil =>
    intro keyAcc rest
    rw [List.append_nil]
    rfl
  | cons c k ih =>
    rw [List.all_cons, Bool.and_eq_true] at hk
    obtain ⟨hk1, hk2⟩ := hk
    intro keyAcc rest
    have hac := isAttrLower_isAttrChar c hk1
    have hlc := charLower_attrLower c hk1
    show lexM (.attrNm nm attrs keyAcc) (c :: (k ++ '=' :: rest)) = _
    rw [show lexM (.attrNm nm attrs keyAcc) (c :: (k ++ '=' :: rest)) =
        lexM (.attrNm nm attrs (keyAcc ++ [charLower c])) (k ++ '=' :: rest) by
      simp only [lexM, hac, if_true]]
    rw [hlc]
    exact (ih hk2 (keyAcc ++ [c]) rest).trans (by rw [List.append_assoc, List.singleton_append])

/-- Lexing the remaining characters of a normalised closing-tag name
accumulates them and emits the closing token at the bracket. -/
theorem lex_closeName (k : List Char) (hk : k.all isNmChar = true) :
    ∀ acc rest, lexM (.closeNm acc) (k ++ '>' :: rest) =
      Tok.closeTag (acc ++ k) :: lexM .txt rest := by
  induction k with
  | nil =>
    intro acc rest
    rw [List.append_nil]
    rfl
  | cons c k ih =>
    rw [List.all_cons, Bool.and_eq_true] at hk
    obtain ⟨hk1, hk2⟩ := hk
    intro acc rest
    have htc := isNmChar_isTagChar c hk1
    have hlc := charLower_nm c hk1
    show lexM (.closeNm acc) (c :: (k ++ '>' :: rest)) = _
    rw [show lexM (.closeNm acc) (c :: (k ++ '>' :: rest)) =
        lexM (.closeNm (acc ++ [charLower c])) (k ++ '>' :: rest) by
      simp only [lexM, htc, if_true]]
    rw [hlc]
    exact (ih hk2 (acc ++ [c]) rest).trans (by rw [List.append_assoc, List.singleton_append])

/-- Lexing normalised opening-tag name characters accumulates them. -/
theorem lex_openName (k : List Char) (hk : k.all isNmChar = true) :
    ∀ acc rest, lexM (.openNm acc) (k ++ rest) = lexM (.openNm (acc ++ k)) rest := by
  induction k with
  | nil =>
    intro acc rest
    rw [List.append_nil]
    rfl
  | cons c k ih =>
    rw [List.all_cons, Bool.and_eq_true] at hk
    obtain ⟨hk1, hk2⟩ := hk
    intro acc rest
    have htc := isNmChar_isTagChar c hk1
    have hlc := charLower_nm c hk1
    show lexM (.openNm acc) (c :: (k ++ rest)) = _
    rw [show lexM (.openNm acc) (c :: (k ++ rest)) =
        lexM (.openNm (acc ++ [charLower c])) (k ++ rest) by
      simp only [lexM, htc, if_true]]
    rw [hlc]
    exact (ih hk2 (acc ++ [c]) rest).trans (by rw [List.append_assoc, List.singleton_append])

/-- Characters with distinct code points are distinct. -/
theorem char_ne_of_toNat (c d : Char) (h : c.toNat ≠ d.toNat) : c ≠ d :=
  fun he => h (he ▸ rfl)

/-- Code-point ranges of a normalised attribute-name character. -/
theorem isAttrLower_toNat (c : Char) (h : isAttrLower c = true) :
    (97 ≤ c.toNat ∧ c.toNat ≤ 122) ∨ (48 ≤ c.toNat ∧ c.toNat ≤ 57) ∨ c.toNat = 45 := by
  simp only [isAttrLower, isNmChar, Bool.or_eq_true, Bool.and_eq_true, decide_eq_true_eq,
    beq_iff_eq] at h
  rcases h with (h | h) | h
  · exact Or.inl h
  · exact Or.inr (Or.inl h)
  · subst h; exact Or.inr (Or.inr rfl)

/-- A normalised attribute-name character is not the closing bracket. -/
theorem attrLower_ne_gt (c : Char) (h : isAttrLower c = true) : c ≠ '>' := by
  apply char_ne_of_toNat
  have hd : ('>' : Char).toNat = 62 := rfl
  rcases isAttrLower_toNat c h with h1 | h1 | h1 <;> omega

/-- Lexer step: a space inside a tag is skipped. -/
theorem lexM_inTag_space (nm : List Char) (attrs : List (List Char × List Char))
    (cs : List Char) : lexM (.inTag nm attrs) (' ' :: cs) = lexM (.inTag nm attrs) cs := rfl

/-- Lexer step: the closing bracket inside a tag emits the opening token. -/
theorem lexM_inTag_gt (nm : List Char) (attrs : List (List Char × List Char))
    (cs : List Char) :
    lexM (.inTag nm attrs) ('>' :: cs) = Tok.openTag nm attrs.reverse :: lexM .txt cs := rfl

/-- Lexer step: the quote after the equals sign opens the attribute value. -/
theorem lexM_attrEq_quot (nm : List Char) (attrs : List (List Char × List Char))
    (key cs : List Char) :
    lexM (.attrEq nm attrs key) ('"' :: cs) = lexM (.attrVal nm attrs key []) cs := rfl

/-- Lexer step: an opening bracket leaves text mode. -/
theorem lexM_txt_lt (cs : List Char) : lexM .txt ('<' :: cs) = lexM .tagStart cs := rfl

/-- Lexer step: a slash after the bracket starts a closing tag. -/
theorem lexM_tagStart_slash (cs : List Char) :
    lexM .tagStart ('/' :: cs) = lexM (.closeNm []) cs := rfl

/-- Lexer step: the closing bracket after an attributeless name emits the tag. -/
theorem lexM_openNm_gt (nm cs : List Char) :
    lexM (.openNm nm) ('>' :: cs) = Tok.openTag nm [] :: lexM .txt cs := rfl

/-- Lexer step: a space after the tag name moves inside the tag. -/
theorem lexM_openNm_space (nm cs : List Char) :
    lexM (.openNm nm) (' ' :: cs) = lexM (.inTag nm []) cs := rfl

/-- Walking one printed attribute from inside a tag accumulates exactly that
attribute. -/
theorem lex_oneAttr (nm : List Char) (acc : List (List Char × List Char))
    (k v rest2 : List Char) (hkOk : keyOkB k = true) :
    lexM (.inTag nm acc) (k ++ '=' :: '"' :: (escAttrC v ++ '"' :: rest2)) =
      lexM (.inTag nm ((k, v) :: acc)) rest2 := by
  obtain ⟨c0, k', rfl⟩ : ∃ c0 k', k = c0 :: k' := by
    cases k with
    | nil => simp [keyOkB] at hkOk
    | cons a b => exact ⟨a, b, rfl⟩
  have hkOk2 := hkOk
  simp only [keyOkB, List.all_cons, Bool.and_eq_true, Bool.not_eq_true', List.isEmpty,
    decide_eq_true_eq] at hkOk2
  have hk1 : isAttrLower c0 = true := hkOk2.2.1
  have hkall : k'.all isAttrLower = true := hkOk2.2.2
  have hac := isAttrLower_isAttrChar c0 hk1
  have hlc := charLower_attrLower c0 hk1
  have hgt := attrLower_ne_gt c0 hk1
  rw [List.cons_append]
  rw [show lexM (.inTag nm acc) (c0 :: (k' ++ '=' :: '"' :: (escAttrC v ++ '"' :: rest2))) =
      lexM (.attrNm nm acc [charLower c0]) (k' ++ '=' :: '"' :: (escAttrC v ++ '"' :: rest2)) by
    simp [lexM, hgt, hac]]
  rw [hlc]
  rw [lex_attrKey nm acc k' hkall [c0] ('"' :: (escAttrC v ++ '"' :: rest2))]
  rw [List.singleton_append, lexM_attrEq_quot]
  rw [lex_escAttr nm acc (c0 :: k') v [] rest2, List.nil_append]

/-- Walking a printed attribute list from inside a tag up to the closing
bracket emits the opening tag: the accumulated attributes reversed, followed
by the walked ones. -/
theorem lex_attrsMid (nm : List Char) (as2 : List (List Char × List Char))
    (hks : as2.all (fun a => keyOkB a.1) = true) :
    ∀ (acc : List (List Char × List Char)) (k v rest : List Char), keyOkB k = true →
      lexM (.inTag nm acc)
        (k ++ '=' :: '"' :: (escAttrC v ++ '"' :: (printAttrsC as2 ++ '>' :: rest))) =
      Tok.openTag nm (acc.reverse ++ (k, v) :: as2) :: lexM .txt rest := by
  induction as2 with
  | nil =>
    intro acc k v rest hkOk
    rw [lex_oneAttr nm acc k v (printAttrsC [] ++ '>' :: rest) hkOk]
    rw [show (printAttrsC [] ++ '>' :: rest) = '>' :: rest from List.nil_append _]
    rw [lexM_inTag_gt, ← List.reverse_cons]
  | cons a as3 ih =>
    rw [List.all_cons, Bool.and_eq_true] at hks
    obtain ⟨hka, hkas⟩ := hks
    intro acc k v rest hkOk
    rw [lex_oneAttr nm acc k v (printAttrsC (a :: as3) ++ '>' :: rest) hkOk]
    rw [show printAttrsC (a :: as3) = printAttrC a ++ printAttrsC as3 from rfl]
    rw [show printAttrC a = ' ' :: a.1 ++ '=' :: '"' :: escAttrC a.2 ++ ['"'] from rfl]
    rw [show ((' ' :: a.1 ++ '=' :: '"' :: escAttrC a.2 ++ ['"']) ++ printAttrsC as3 ++
        '>' :: rest) =
        ' ' :: (a.1 ++ '=' :: '"' :: (escAttrC a.2 ++ '"' :: (printAttrsC as3 ++
          '>' :: rest))) by
      simp [List.append_assoc]]
    rw [lexM_inTag_space]
    rw [ih hkas ((k, v) :: acc) a.1 a.2 rest hka]
    rw [List.reverse_cons, List.append_assoc, List.singleton_append]

/-- Lexing the printed form of a normalised opening tag emits exactly that
token. -/
theorem lex_openTagTok (nm : List Char) (attrs : List (List Char × List Char))
    (rest : List Char) (hnm : tagNameOk nm = true)
    (hks : attrs.all (fun a => keyOkB a.1) = true) :
    lexM .txt (printTokC (.openTag nm attrs) ++ rest) =
      Tok.openTag nm attrs :: lexM .txt rest := by
  obtain ⟨c0, nm2, rfl⟩ : ∃ c0 nm2, nm = c0 :: nm2 := by
    cases nm with
    | nil => simp [tagNameOk] at hnm
    | cons a b => exact ⟨a, b, rfl⟩
  simp only [tagNameOk, Bool.and_eq_true, decide_eq_true_eq] at hnm
  obtain ⟨⟨h97, h122⟩, hall⟩ := hnm
  rw [List.all_cons, Bool.and_eq_true] at hall
  obtain ⟨hc0nm, hnm2⟩ := hall
  have hslash : c0 ≠ '/' :=
    char_ne_of_toNat c0 '/' (by have hd : ('/' : Char).toNat = 47 := rfl; omega)
  have halpha : isAlphaB c0 = true := by
    simp only [isAlphaB, Bool.or_eq_true, Bool.and_eq_true, decide_eq_true_eq]
    omega
  have hlc := charLower_nm c0 hc0nm
  rw [show printTokC (.openTag (c0 :: nm2) attrs) ++ rest =
      '<' :: c0 :: (nm2 ++ (printAttrsC attrs ++ '>' :: rest)) by
    simp [printTokC, List.append_assoc]]
  rw [lexM_txt_lt]
  rw [show lexM .tagStart (c0 :: (nm2 ++ (printAttrsC attrs ++ '>' :: rest))) =
      lexM (.openNm [charLower c0]) (nm2 ++ (printAttrsC attrs ++ '>' :: rest)) by
    simp [lexM, hslash, halpha]]
  rw [hlc]
  rw [lex_openName nm2 hnm2 [c0] (printAttrsC attrs ++ '>' :: rest)]
  rw [List.singleton_append]
  cases attrs with
  | nil =>
    rw [show (printAttrsC [] ++ '>' :: rest) = '>' :: rest from List.nil_append _]
    rw [lexM_openNm_gt]
  | cons a as3 =>
    rw [List.all_cons, Bool.and_eq_true] at hks
    obtain ⟨hka, hkas⟩ := hks
    rw [show (printAttrsC (a :: as3) ++ '>' :: rest) =
        ' ' :: (a.1 ++ '=' :: '"' :: (escAttrC a.2 ++ '"' ::
          (printAttrsC as3 ++ '>' :: rest))) by
      simp [printAttrsC, printAttrC, List.append_assoc]]
    rw [lexM_openNm_space]
    rw [lex_attrsMid (c0 :: nm2) as3 hkas [] a.1 a.2 rest hka]
    rw [List.reverse_nil, List.nil_append]

/-- Lexing the printed form of a normalised closing tag emits exactly that
token. -/
theorem lex_closeTagTok (nm rest : List Char) (hnm : tagNameOk nm = true) :
    lexM .txt (printTokC (.closeTag nm) ++ rest) =
      Tok.closeTag nm :: lexM .txt rest := by
  have hall : nm.all isNmChar = true := by
    cases nm with
    | nil => simp [tagNameOk] at hnm
    | cons a b =>
      simp only [tagNameOk, Bool.and_eq_true] at hnm
      exact hnm.2
  rw [show printTokC (.closeTag nm) ++ rest = '<' :: '/' :: (nm ++ '>' :: rest) by
    simp [printTokC, List.append_assoc]]
  rw [lexM_txt_lt, lexM_tagStart_slash]
  rw [lex_closeName nm hall [] rest, List.nil_append]

/-- Every tag of the allow-list is a well-formed lowercase name. -/
theorem tagFacts : ∀ n ∈ allowedTagsL, tagNameOk n = true := by decide

/-- An allowed tag name is well formed. -/
theorem allowedTag_nameOk (n : List Char) (h : allowedTagB n = true) :
    tagNameOk n = true :=
  tagFacts n (List.elem_iff.mp h)

/-- Normalised attributes have normalised keys. -/
theorem attrsNorm_keys (attrs : List (List Char × List Char))
    (h : attrs.all attrNormB = true) : attrs.all (fun a => keyOkB a.1) = true := by
  rw [List.all_eq_true] at h ⊢
  intro a ha
  have h2 := h a ha
  simp only [attrNormB, Bool.and_eq_true] at h2
  exact h2.1.2

/-- Decompose normality of a nonempty stream. -/
theorem normB_cons (t : Tok) (ts : List Tok) (h : normB (t :: ts) = true) :
    tokOkB t = true ∧ normB ts = true := by
  simp only [normB, List.all_cons, Bool.and_eq_true] at h ⊢
  obtain ⟨⟨h1, h2⟩, h3⟩ := h
  refine ⟨h1, h2, ?_⟩
  cases t with
  | text s =>
    cases ts with
    | nil => rfl
    | cons t2 ts2 => cases t2 <;> simp_all [noAdjTextB]
  | openTag nm attrs => exact h3
  | closeTag nm => exact h3

/-- After a text run in a normal stream, the remainder does not start with a
text run. -/
theorem noAdjText_headNot (s : List Char) (ts : List Tok)
    (h : noAdjTextB (Tok.text s :: ts) = true) : headNotText ts = true := by
  cases ts with
  | nil => rfl
  | cons t2 ts2 => cases t2 <;> simp_all [noAdjTextB, headNotText]

/-- Pushing a nonempty character run onto a stream that does not start with a
text run conses a fresh text token. -/
theorem pushTextStr_notText (s : List Char) (ts : List Tok) (hs : s ≠ [])
    (hts : headNotText ts = true) : pushTextStr s ts = Tok.text s :: ts := by
  induction s with
  | nil => exact absurd rfl hs
  | cons c s ih =>
    cases s with
    | nil =>
      show pushText c ts = Tok.text [c] :: ts
      cases ts with
      | nil => rfl
      | cons t2 ts2 =>
        cases t2 with
        | text s2 => simp [headNotText] at hts
        | openTag nm attrs => rfl
        | closeTag nm => rfl
    | cons c2 s2 =>
      show pushText c (pushTextStr (c2 :: s2) ts) = _
      rw [ih (by simp)]
      rfl

/-- Lexing the printed form of a normal token stream recovers it exactly. -/
theorem lex_print_norm (ts : List Tok) (h : normB ts = true) :
    lexM .txt (printToksC ts) = ts := by
  induction ts with
  | nil => rfl
  | cons t ts ih =>
    obtain ⟨ht, hts⟩ := normB_cons t ts h
    cases t with
    | text s =>
      show lexM .txt (escTextC s ++ printToksC ts) = _
      rw [lex_escText, ih hts]
      apply pushTextStr_notText
      · cases s with
        | nil => simp [tokOkB, tagOkB, textOkB, List.isEmpty] at ht
        | cons c s2 => simp
      · apply noAdjText_headNot s
        simp only [normB, Bool.and_eq_true] at h
        exact h.2
    | openTag nm attrs =>
      have ht2 := ht
      simp only [tokOkB, tagOkB, textOkB, Bool.and_eq_true] at ht2
      rw [show printToksC (Tok.openTag nm attrs :: ts) =
          printTokC (.openTag nm attrs) ++ printToksC ts from rfl]
      rw [lex_openTagTok nm attrs (printToksC ts) (allowedTag_nameOk nm ht2.1.1)
        (attrsNorm_keys attrs ht2.1.2), ih hts]
    | closeTag nm =>
      have ht2 := ht
      simp only [tokOkB, tagOkB, textOkB, Bool.and_eq_true] at ht2
      rw [show printToksC (Tok.closeTag nm :: ts) =
          printTokC (.closeTag nm) ++ printToksC ts from rfl]
      rw [lex_closeTagTok nm (printToksC ts) (allowedTag_nameOk nm ht2.1), ih hts]

/-- Sanitisation keeps a stream of allowed tags with normalised attributes
unchanged. -/
theorem sanToks_id (ts : List Tok) (h : ts.all tagOkB = true) : sanToks none ts = ts := by
  induction ts with
  | nil => rfl
  | cons t ts ih =>
    rw [List.all_cons, Bool.and_eq_true] at h
    obtain ⟨ht, hts⟩ := h
    cases t with
    | text s =>
      show Tok.text s :: sanToks none ts = _
      rw [ih hts]
    | openTag nm attrs =>
      simp only [tagOkB, Bool.and_eq_true] at ht
      obtain ⟨hal, hat⟩ := ht
      have hfa : filterAttrs attrs = attrs := by
        unfold filterAttrs
        rw [List.filter_eq_self]
        exact List.all_eq_true.mp hat
      simp [sanToks, hal, hfa, ih hts]
    | closeTag nm =>
      simp only [tagOkB] at ht
      simp [sanToks, ht, ih hts]

/-- Text coalescing keeps a normal stream unchanged. -/
theorem mergeTexts_id (ts : List Tok) (h : normB ts = true) : mergeTexts ts = ts := by
  induction ts with
  | nil => rfl
  | cons t ts ih =>
    obtain ⟨ht, hts⟩ := normB_cons t ts h
    show pushTok t (mergeTexts ts) = t :: ts
    rw [ih hts]
    cases t with
    | text s =>
      have hne : s.isEmpty = false := by
        simp only [tokOkB, tagOkB, textOkB, Bool.and_eq_true, Bool.not_eq_true'] at ht
        exact ht.2
      have hhead : headNotText ts = true := by
        apply noAdjText_headNot s
        simp only [normB, Bool.and_eq_true] at h
        exact h.2
      cases ts with
      | nil => simp [pushTok, hne]
      | cons t2 ts2 =>
        cases t2 with
        | text s2 => simp [headNotText] at hhead
        | openTag a b => simp [pushTok, hne]
        | closeTag a => simp [pushTok, hne]
    | openTag a b => rfl
    | closeTag a => rfl

/-- Every token surviving sanitisation is tag-normal. -/
theorem sanToks_all_tagOk (ts : List Tok) :
    ∀ mode, ((sanToks mode ts).all tagOkB) = true := by
  induction ts with
  | nil => intro mode; cases mode <;> rfl
  | cons t ts ih =>
    intro mode
    cases mode with
    | some n =>
      cases t with
      | closeTag m =>
        show (if m == n then sanToks none ts else sanToks (some n) ts).all tagOkB = true
        split
        · exact ih none
        · exact ih (some n)
      | text s => exact ih (some n)
      | openTag nm attrs => exact ih (some n)
    | none =>
      cases t with
      | text s =>
        show (Tok.text s :: sanToks none ts).all tagOkB = true
        simp only [List.all_cons, Bool.and_eq_true]
        exact ⟨rfl, ih none⟩
      | openTag nm attrs =>
        show (sanToks none (Tok.openTag nm attrs :: ts)).all tagOkB = true
        simp only [sanToks]
        split
        · rename_i hal
          simp only [List.all_cons, Bool.and_eq_true]
          refine ⟨?_, ih none⟩
          simp only [tagOkB, Bool.and_eq_true]
          refine ⟨hal, ?_⟩
          rw [List.all_eq_true]
          intro a ha
          exact (List.mem_filter.mp ha).2
        · split
          · exact ih (some nm)
          · exact ih none
      | closeTag nm =>
        show (sanToks none (Tok.closeTag nm :: ts)).all tagOkB = true
        simp only [sanToks]
        split
        · rename_i hal
          simp only [List.all_cons, Bool.and_eq_true]
          exact ⟨hal, ih none⟩
        · exact ih none

/-- Splitting full token normality into its tag and text parts. -/
theorem all_tokOk_split (ts : List Tok) :
    ts.all tokOkB = (ts.all tagOkB && ts.all textOkB) := by
  induction ts with
  | nil => rfl
  | cons t ts ih =>
    simp [List.all_cons, tokOkB, ih, Bool.and_assoc, Bool.and_comm, Bool.and_left_comm]

/-- The tail of an adjacency-free stream is adjacency-free. -/
theorem noAdj_tail (t : Tok) (ts : List Tok) (h : noAdjTextB (t :: ts) = true) :
    noAdjTextB ts = true := by
  cases t with
  | text s =>
    cases ts with
    | nil => rfl
    | cons t2 ts2 => cases t2 <;> simp_all [noAdjTextB]
  | openTag a b => exact h
  | closeTag a => exact h

/-- Consing a text run onto an adjacency-free stream that does not start with
text stays adjacency-free. -/
theorem noAdj_cons_text (x : List Char) (ts : List Tok) (hh : headNotText ts = true)
    (h : noAdjTextB ts = true) : noAdjTextB (Tok.text x :: ts) = true := by
  cases ts with
  | nil => rfl
  | cons t2 ts2 => cases t2 <;> simp_all [noAdjTextB, headNotText]

/-- Pushing preserves tag normality. -/
theorem pushTok_tagOk (t : Tok) (ts : List Tok) (h1 : tagOkB t = true)
    (h2 : ts.all tagOkB = true) : (pushTok t ts).all tagOkB = true := by
  cases t with
  | text s =>
    show (pushTok (Tok.text s) ts).all tagOkB = true
    simp only [pushTok]
    split
    · exact h2
    · cases ts with
      | nil => simp [tagOkB]
      | cons t2 ts2 =>
        cases t2 with
        | text s2 =>
          rw [List.all_cons, Bool.and_eq_true] at h2
          simp only [List.all_cons, Bool.and_eq_true]
          exact ⟨rfl, h2.2⟩
        | openTag a b => simp_all [List.all_cons]
        | closeTag a => simp_all [List.all_cons]
  | openTag a b =>
    simp only [pushTok, List.all_cons, Bool.and_eq_true]
    exact ⟨h1, h2⟩
  | closeTag a =>
    simp only [pushTok, List.all_cons, Bool.and_eq_true]
    exact ⟨h1, h2⟩

/-- A list that starts nonempty stays nonempty under append. -/
theorem isEmpty_append_false (s t : List Char) (h : s.isEmpty = false) :
    (s ++ t).isEmpty = false := by
  cases s with
  | nil => simp [List.isEmpty] at h
  | cons c cs => rfl

/-- Pushing preserves text normality: merged and fresh runs are nonempty. -/
theorem pushTok_textOk (t : Tok) (ts : List Tok) (h2 : ts.all textOkB = true) :
    (pushTok t ts).all textOkB = true := by
  cases t with
  | text s =>
    show (pushTok (Tok.text s) ts).all textOkB = true
    simp only [pushTok]
    split
    · exact h2
    · rename_i hne
      rw [Bool.not_eq_true] at hne
      cases ts with
      | nil =>
        simp only [List.all_cons, List.all_nil, Bool.and_true]
        simp [textOkB, hne]
      | cons t2 ts2 =>
        cases t2 with
        | text s2 =>
          rw [List.all_cons, Bool.and_eq_true] at h2
          simp only [List.all_cons, Bool.and_eq_true]
          refine ⟨?_, h2.2⟩
          simp only [textOkB, Bool.not_eq_true']
          exact isEmpty_append_false s s2 hne
        | openTag a b =>
          simp only [List.all_cons, Bool.and_eq_true]
          rw [List.all_cons, Bool.and_eq_true] at h2
          exact ⟨by simp [textOkB, hne], h2⟩
        | closeTag a =>
          simp only [List.all_cons, Bool.and_eq_true]
          rw [List.all_cons, Bool.and_eq_true] at h2
          exact ⟨by simp [textOkB, hne], h2⟩
  | openTag a b =>
    simp only [pushTok, List.all_cons, Bool.and_eq_true]
    exact ⟨rfl, h2⟩
  | closeTag a =>
    simp only [pushTok, List.all_cons, Bool.and_eq_true]
    exact ⟨rfl, h2⟩

/-- Pushing preserves freedom from adjacent text runs. -/
theorem pushTok_noAdj (t : Tok) (ts : List Tok) (h : noAdjTextB ts = true) :
    noAdjTextB (pushTok t ts) = true := by
  cases t with
  | text s =>
    simp only [pushTok]
    split
    · exact h
    · cases ts with
      | nil => rfl
      | cons t2 ts2 =>
        cases t2 with
        | text s2 =>
          have hh : headNotText ts2 = true := noAdjText_headNot s2 ts2 h
          exact noAdj_cons_text (s ++ s2) ts2 hh (noAdj_tail _ _ h)
        | openTag a b =>
          exact noAdj_cons_text s (Tok.openTag a b :: ts2) rfl h
        | closeTag a =>
          exact noAdj_cons_text s (Tok.closeTag a :: ts2) rfl h
  | openTag a b =>
    cases ts with
    | nil => rfl
    | cons t2 ts2 => cases t2 <;> exact h
  | closeTag a =>
    cases ts with
    | nil => rfl
    | cons t2 ts2 => cases t2 <;> exact h

/-- Coalescing a tag-normal stream yields a fully normal stream. -/
theorem mergeTexts_norm (ts : List Tok) (h : ts.all tagOkB = true) :
    normB (mergeTexts ts) = true := by
  have key : ∀ ts2 : List Tok, ts2.all tagOkB = true →
      ((mergeTexts ts2).all tagOkB = true ∧ (mergeTexts ts2).all textOkB = true ∧
        noAdjTextB (mergeTexts ts2) = true) := by
    intro ts2
    induction ts2 with
    | nil => intro _; exact ⟨rfl, rfl, rfl⟩
    | cons t rest ih =>
      intro h2
      rw [List.all_cons, Bool.and_eq_true] at h2
      obtain ⟨ht, hrest⟩ := h2
      obtain ⟨ih1, ih2, ih3⟩ := ih hrest
      exact ⟨pushTok_tagOk t _ ht ih1, pushTok_textOk t _ ih2, pushTok_noAdj t _ ih3⟩
  obtain ⟨k1, k2, k3⟩ := key ts h
  simp only [normB, all_tokOk_split, Bool.and_eq_true]
  exact ⟨⟨k1, k2⟩, k3⟩

/-- C9: the HTML reduction of _getDOMSnapshot is idempotent: reducing an
already-reduced document yields the identical string, with no further tag or
attribute removal.  Reduction always produces a normal token stream; lexing
the printed form of a normal stream recovers it exactly, and sanitisation
and coalescing leave a normal stream unchanged. -/
theorem reduce_idem (s : String) : reduce (reduce s) = reduce s := by
  have hM : normB (mergeTexts (sanToks none (lexM .txt s.toList))) = true :=
    mergeTexts_norm _ (sanToks_all_tagOk _ none)
  have htags : (mergeTexts (sanToks none (lexM .txt s.toList))).all tagOkB = true := by
    have h2 := hM
    simp only [normB, all_tokOk_split, Bool.and_eq_true] at h2
    exact h2.1.1
  show String.mk (printToksC (mergeTexts (sanToks none (lexM .txt (reduce s).toList)))) =
    reduce s
  rw [show (reduce s).toList =
      printToksC (mergeTexts (sanToks none (lexM .txt s.toList))) from rfl]
  rw [lex_print_norm _ hM, sanToks_id _ htags, mergeTexts_id _ hM]
  rfl
